import Mathlib

/-!
Verification of the cryptofuzz differential-execution core (src/executor.cpp)
against its natural-language specification.

The C++ executor is shallowly embedded: operations become Lean structures,
byte buffers become lists of naturals (each byte taken modulo 256 where the
source relies on uint8 overflow), optional results become Option, and the
observable side effects of a hook (memory-sanitizer probes, pool insertions,
decrypt attempts, calls to the Abort reporter) are returned as explicit data.
Identifiers that live outside src/executor.cpp (module IDs produced by
CF_MODULE, the kMaxBignumSize constant from config.h, the operation name and
algorithm strings) are passed as parameters.
-/

namespace Cryptofuzz

/-- A backend module handle: its numeric ID (std::map key and Module::ID),
human-readable name, and the SupportsModularBignumCalc capability predicate. -/
structure Module where
  id : Nat
  name : String
  supportsModularBignumCalc : Bool
deriving DecidableEq

/-- Cipher identifiers that executor.cpp tests for explicitly; every other
cipher ID is collapsed into OtherCipher. -/
inductive CipherType where
  | AES_128_OCB | AES_256_OCB
  | AES_128_GCM | AES_192_GCM | AES_256_GCM
  | AES_128_CCM | AES_192_CCM | AES_256_CCM
  | ARIA_128_CCM | ARIA_192_CCM | ARIA_256_CCM
  | ARIA_128_GCM | ARIA_192_GCM | ARIA_256_GCM
  | DES_EDE3_WRAP
  | OtherCipher (id : Nat)
deriving DecidableEq

/-- Bignum calc operations that executor.cpp tests for explicitly (the
CF_CALCOP cases of ExecutorBignumCalc::callModule and the Rand case of
dontCompare); every other calc op is collapsed into OtherCalc. -/
inductive CalcOp where
  | SetBit | Exp | ModLShift | Exp2 | Rand
  | OtherCalc (id : Nat)
deriving DecidableEq

/-- Curve identifiers that executor.cpp tests for explicitly (the
CF_ECC_CURVE cases of the ECDSA_Sign dontCompare specialization). -/
inductive CurveType where
  | ed25519 | ed448
  | OtherCurve (id : Nat)
deriving DecidableEq

/-- component::SymmetricCipher: an IV, a key and a cipher type. -/
structure SymmetricCipher where
  iv : List Nat
  key : List Nat
  cipherType : CipherType
deriving DecidableEq

/-- component::Ciphertext: ciphertext bytes plus an optional tag. -/
structure Ciphertext where
  ciphertext : List Nat
  tag : Option (List Nat)
deriving DecidableEq

/-- operation::SymmetricEncrypt, restricted to the fields executor.cpp
reads: cleartext, cipher, optional tagSize, optional AAD, and the modifier. -/
structure SymmetricEncryptOp where
  cleartext : List Nat
  cipher : SymmetricCipher
  tagSize : Option Nat
  aad : Option (List Nat)
  modifier : List Nat
deriving DecidableEq

/-- operation::SymmetricDecrypt as constructed by the SymmetricEncrypt
postprocess hook: the ciphertext and tag returned by the encryption, the
cipher copied from the encrypt operation, the output buffer size, the AAD
and the modifier. -/
structure SymmetricDecryptOp where
  ciphertext : List Nat
  tag : Option (List Nat)
  cipher : SymmetricCipher
  cleartextSize : Nat
  aad : Option (List Nat)
  modifier : List Nat
deriving DecidableEq

/-- operation::HMAC, restricted to the fields executor.cpp reads in
dontCompare (cipher.cipherType) plus the modifier. -/
structure HMACOp where
  cipher : SymmetricCipher
  modifier : List Nat
deriving DecidableEq

/-- operation::CMAC, restricted to the fields executor.cpp reads in
dontCompare (cipher.cipherType) plus the modifier. -/
structure CMACOp where
  cipher : SymmetricCipher
  modifier : List Nat
deriving DecidableEq

/-- operation::BignumCalc: the calc op, four bignum arguments (decimal
strings, GetSize is the string length), the optional modulo and the
modifier. -/
structure BignumCalcOp where
  calcOp : CalcOp
  bn0 : String
  bn1 : String
  bn2 : String
  bn3 : String
  modulo : Option String
  modifier : List Nat
deriving DecidableEq

/-- operation::ECDSA_Sign, restricted to the fields executor.cpp reads in
dontCompare: the curve and the UseRandomNonce predicate on the nonce
source. -/
structure ECDSA_SignOp where
  curveType : CurveType
  useRandomNonce : Bool
  modifier : List Nat
deriving DecidableEq

/-- operation::ECC_PrivateToPublic, restricted to the fields read by the
ECDH_Derive getOpPostprocess specialization. -/
structure ECC_PrivateToPublicOp where
  curveType : CurveType
  priv : String
  modifier : List Nat
deriving DecidableEq

/-- operation::ECDH_Derive: modifier, curve, and the two public keys (each
an affine coordinate pair of decimal strings). -/
structure ECDH_DeriveOp where
  modifier : List Nat
  curveType : CurveType
  pub1 : String × String
  pub2 : String × String
deriving DecidableEq

/-- The data carried by one call to ExecutorBase::abort: the module names
(sorted by the abort function itself), the operation name, the algorithm
string and the reason. -/
structure AbortInfo where
  moduleNames : List String
  operation : String
  algorithm : String
  reason : String
deriving DecidableEq

/-- ExecutorBase::abort: sorts the module names, then prints
"Assertion failure: name1-name2-...-operation-algorithm-reason" and
terminates.  We model the printed/terminating payload. -/
def abortCall (moduleNames : List String) (operation algorithm reason : String) :
    AbortInfo :=
  { moduleNames := List.insertionSort (fun a b => a ≤ b) moduleNames
    operation := operation
    algorithm := algorithm
    reason := reason }

/-! ## Duplicate-task modifier mutation (ExecutorBase::Run, loop body, i > 0) -/

/-- The in-place mutation applied to a modifier byte vector: if empty, push
512 bytes of value 1; otherwise increment every byte (uint8 wrap-around,
hence modulo 256). -/
def mutateModifier (modifier : List Nat) : List Nat :=
  if modifier.length = 0 then List.replicate 512 1
  else modifier.map (fun c => (c + 1) % 256)

/-- The i > 0 steps of the Run loop mutation.  The first argument is
operations[i-1].first (prevModule); the task argument is operations[i].
NOTE, faithfully to the source: the variable prevOp in the source is bound
to operations[i].second (not operations[i-1].second), so its modifier is
compared against itself; we keep that comparison literally. -/
def dupMutateGo {Op : Type} (getMod : Op → List Nat) (setMod : Op → List Nat → Op) :
    Module → List (Module × Op) → List (Module × Op)
  | _, [] => []
  | prevModule, t :: rest =>
    (if prevModule = t.1 ∧ getMod t.2 = getMod t.2 then
      (t.1, setMod t.2 (mutateModifier (getMod t.2)))
    else t) :: dupMutateGo getMod setMod t.1 rest

/-- The whole mutation pass of the Run loop over the task list:
operations[0] is never mutated (the branch requires i > 0). -/
def dupMutate {Op : Type} (getMod : Op → List Nat) (setMod : Op → List Nat → Op) :
    List (Module × Op) → List (Module × Op)
  | [] => []
  | t :: rest => t :: dupMutateGo getMod setMod t.1 rest

/-! ## postprocess hooks: memory-sanitizer probes and pool insertions

Each hook returns the byte regions handed to
fuzzing::memory::memory_test_msan, in call order, plus any other observable
effect of the hook. -/

/-- Digest postprocess: probe the result bytes when the result is present. -/
def digestPostprocess (result : Option (List Nat)) : List (List Nat) :=
  match result with
  | some r => [r]
  | none => []

/-- HMAC postprocess: probe the result bytes when the result is present. -/
def hmacPostprocess (result : Option (List Nat)) : List (List Nat) :=
  match result with
  | some r => [r]
  | none => []

/-- CMAC postprocess: probe the result bytes when the result is present. -/
def cmacPostprocess (result : Option (List Nat)) : List (List Nat) :=
  match result with
  | some r => [r]
  | none => []

/-- SymmetricDecrypt postprocess: probe the result bytes when the result is
present. -/
def symmetricDecryptPostprocess (result : Option (List Nat)) : List (List Nat) :=
  match result with
  | some r => [r]
  | none => []

/-- KDF (component::Key) postprocess, shared shape of all KDF_* hooks:
probe the result bytes when the result is present. -/
def kdfPostprocess (result : Option (List Nat)) : List (List Nat) :=
  match result with
  | some r => [r]
  | none => []

/-- Observable effects of the BignumCalc postprocess hook. -/
structure BignumPostOutcome where
  msanProbes : List (List Nat)
  poolBignum : List String
deriving DecidableEq

/-- BignumCalc postprocess: no memory-sanitizer probe is performed; the
trimmed decimal result is admitted to Pool_Bignum when its length is at
most kMaxBignumSize.  The result argument is the trimmed decimal string of
the returned bignum. -/
def bignumCalcPostprocess (kMaxBignumSize : Nat) (result : Option String) :
    BignumPostOutcome :=
  match result with
  | some bignum =>
    { msanProbes := []
      poolBignum := if bignum.length ≤ kMaxBignumSize then [bignum] else [] }
  | none => { msanProbes := [], poolBignum := [] }

/-! ## SymmetricEncrypt postprocess: probes plus the self-decrypt check -/

/-- The tryDecrypt flag computed by the SymmetricEncrypt postprocess hook:
initialized to true, cleared by the switch on the cipher type when the
module is OpenSSL.  The openSSL_ID parameter stands for the
CF_MODULE("OpenSSL") constant, which is defined outside executor.cpp. -/
def symEncTryDecrypt (openSSL_ID : Nat) (module : Module)
    (op : SymmetricEncryptOp) : Bool :=
  if module.id = openSSL_ID then
    match op.cipher.cipherType with
    | CipherType.AES_128_OCB | CipherType.AES_256_OCB => false
    | CipherType.AES_128_GCM | CipherType.AES_192_GCM | CipherType.AES_256_GCM
    | CipherType.AES_128_CCM | CipherType.AES_192_CCM | CipherType.AES_256_CCM
    | CipherType.ARIA_128_CCM | CipherType.ARIA_192_CCM | CipherType.ARIA_256_CCM
    | CipherType.ARIA_128_GCM | CipherType.ARIA_192_GCM | CipherType.ARIA_256_GCM =>
      if op.tagSize = none then false else true
    | _ => true
  else true

/-- The operation::SymmetricDecrypt value constructed by the SymmetricEncrypt
postprocess hook from the encrypt operation and its result: ciphertext and
tag from the result, cipher copied from the encrypt operation, output buffer
size cleartext size + 32, the original AAD, and an empty modifier. -/
def symmetricDecryptOfEncrypt (op : SymmetricEncryptOp) (ct : Ciphertext) :
    SymmetricDecryptOp :=
  { ciphertext := ct.ciphertext
    tag := ct.tag
    cipher := op.cipher
    cleartextSize := op.cleartext.length + 32
    aad := op.aad
    modifier := [] }

/-- Observable effects of the SymmetricEncrypt postprocess hook. -/
structure SymEncOutcome where
  msanProbes : List (List Nat)
  decryptOp : Option SymmetricDecryptOp
  abortCall : Option AbortInfo
deriving DecidableEq

/-- The SymmetricEncrypt postprocess hook.  When options.noDecrypt is set it
returns immediately (before any probe).  Otherwise it probes the ciphertext
and, when present, the tag; then, when the cleartext and the returned
ciphertext are both non-empty, it runs the self-decrypt check: compute
tryDecrypt, build the decrypt operation, call the same module, and invoke
the Abort reporter with reason "cannot decrypt ciphertext" when decryption
returns nothing or a cleartext different from the original.  The opName and
algorithm parameters stand for op.Name() and op.GetAlgorithmString(), which
are defined outside executor.cpp. -/
def symmetricEncryptPostprocess (noDecrypt : Bool) (openSSL_ID : Nat)
    (module : Module) (opSymmetricDecrypt : SymmetricDecryptOp → Option (List Nat))
    (opName algorithm : String)
    (op : SymmetricEncryptOp) (result : Option Ciphertext) : SymEncOutcome :=
  if noDecrypt then { msanProbes := [], decryptOp := none, abortCall := none }
  else
    match result with
    | none => { msanProbes := [], decryptOp := none, abortCall := none }
    | some ct =>
      let probes := ct.ciphertext :: ct.tag.toList
      if op.cleartext.length > 0 ∧ ct.ciphertext.length > 0 then
        if symEncTryDecrypt openSSL_ID module op then
          let opDecrypt := symmetricDecryptOfEncrypt op ct
          match opSymmetricDecrypt opDecrypt with
          | none =>
            { msanProbes := probes
              decryptOp := some opDecrypt
              abortCall := some (abortCall [module.name] opName algorithm
                "cannot decrypt ciphertext") }
          | some cleartext =>
            if cleartext ≠ op.cleartext then
              { msanProbes := probes
                decryptOp := some opDecrypt
                abortCall := some (abortCall [module.name] opName algorithm
                  "cannot decrypt ciphertext") }
            else
              { msanProbes := probes, decryptOp := some opDecrypt, abortCall := none }
        else { msanProbes := probes, decryptOp := none, abortCall := none }
      else { msanProbes := probes, decryptOp := none, abortCall := none }

/-! ## dontCompare specializations and the two no-op compare overrides -/

/-- Default dontCompare: false for every operation. -/
def defaultDontCompare {Op : Type} (operation : Op) : Bool :=
  false

/-- BignumCalc dontCompare: true exactly for the Rand() calc op. -/
def bignumCalcDontCompare (operation : BignumCalcOp) : Bool :=
  if operation.calcOp = CalcOp.Rand then true else false

/-- ECDSA_Sign dontCompare: true when the curve is neither ed25519 nor
ed448 and the operation uses a random nonce. -/
def ecdsaSignDontCompare (operation : ECDSA_SignOp) : Bool :=
  if operation.curveType ≠ CurveType.ed25519 ∧
      operation.curveType ≠ CurveType.ed448 then
    if operation.useRandomNonce then true else false
  else false

/-- SymmetricEncrypt dontCompare: true exactly for DES_EDE3_WRAP. -/
def symmetricEncryptDontCompare (operation : SymmetricEncryptOp) : Bool :=
  if operation.cipher.cipherType = CipherType.DES_EDE3_WRAP then true else false

/-- SymmetricDecrypt dontCompare: true exactly for DES_EDE3_WRAP. -/
def symmetricDecryptDontCompare (operation : SymmetricDecryptOp) : Bool :=
  if operation.cipher.cipherType = CipherType.DES_EDE3_WRAP then true else false

/-- CMAC dontCompare: true exactly for DES_EDE3_WRAP. -/
def cmacDontCompare (operation : CMACOp) : Bool :=
  if operation.cipher.cipherType = CipherType.DES_EDE3_WRAP then true else false

/-- HMAC dontCompare: true exactly for DES_EDE3_WRAP. -/
def hmacDontCompare (operation : HMACOp) : Bool :=
  if operation.cipher.cipherType = CipherType.DES_EDE3_WRAP then true else false

/-- The ECC_GenerateKeyPair compare override: a no-op for every input
(results can be produced indeterministically). -/
def eccGenerateKeyPairCompare {Op ρ : Type} (operations : List (Module × Op))
    (results : List (Module × Option ρ)) : Option AbortInfo :=
  none

/-- The DH_GenerateKeyPair compare override: a no-op for every input
(results can be produced indeterministically). -/
def dhGenerateKeyPairCompare {Op ρ : Type} (operations : List (Module × Op))
    (results : List (Module × Option ρ)) : Option AbortInfo :=
  none

/-! ## Default comparator (ExecutorBase::compare) -/

/-- ExecutorBase::filter fused with the loop dereference: keep the present
results together with their module, dropping the std::nullopt entries. -/
def filterResults {ρ : Type} (results : List (Module × Option ρ)) :
    List (Module × ρ) :=
  results.filterMap (fun r =>
    match r.2 with
    | some v => some (r.1, v)
    | none => none)

/-- The comparison loop over the filtered results: walk adjacent pairs in
order and call abort with the two module names, the (reconstructed)
operation name and algorithm string, and reason "difference" at the first
unequal pair. -/
def findFirstDiff {ρ : Type} [DecidableEq ρ] (opName algorithm : String) :
    List (Module × ρ) → Option AbortInfo
  | a :: b :: rest =>
    if a.2 = b.2 then findFirstDiff opName algorithm (b :: rest)
    else some (abortCall [a.1.name, b.1.name] opName algorithm "difference")
  | _ => none

/-- ExecutorBase::compare.  The opName and algorithm parameters stand for
the Name() and GetAlgorithmString() of the operation reconstructed inside
the loop by getOp(nullptr, data, size).  The empty-operations arm is
unreachable: Run only calls compare with a non-empty task list. -/
def compareExec {Op ρ : Type} [DecidableEq ρ] (dontCompareFn : Op → Bool)
    (operations : List (Module × Op)) (opName algorithm : String)
    (results : List (Module × Option ρ)) : Option AbortInfo :=
  if results.length < 2 then none
  else
    let filtered := filterResults results
    if filtered.length < 2 then none
    else
      match operations with
      | [] => none
      | o0 :: _ =>
        if dontCompareFn o0.2 then none
        else findFirstDiff opName algorithm filtered

/-! ## ExecutorBignumCalc::callModule -/

/-- ExecutorBignumCalc::callModule: gate on the calc-op option filter, the
kMaxBignumSize cap on bn0..bn3, the modular-capability check, and the
per-op caps; otherwise delegate to the module method (the opBignumCalc
parameter).  kMaxBignumSize comes from config.h, outside executor.cpp. -/
def bignumCalcCallModule (kMaxBignumSize : Nat) (calcOpsHave : CalcOp → Bool)
    (module : Module) (opBignumCalc : BignumCalcOp → Option String)
    (op : BignumCalcOp) : Option String :=
  if ¬ calcOpsHave op.calcOp then none
  else if op.bn0.length > kMaxBignumSize then none
  else if op.bn1.length > kMaxBignumSize then none
  else if op.bn2.length > kMaxBignumSize then none
  else if op.bn3.length > kMaxBignumSize then none
  else if op.modulo ≠ none ∧ ¬ module.supportsModularBignumCalc then none
  else
    match op.calcOp with
    | CalcOp.SetBit => if op.bn1.length > 4 then none else opBignumCalc op
    | CalcOp.Exp =>
      if op.bn0.length > 5 ∨ op.bn1.length > 2 then none else opBignumCalc op
    | CalcOp.ModLShift => if op.bn1.length > 4 then none else opBignumCalc op
    | CalcOp.Exp2 => if op.bn0.length > 4 then none else opBignumCalc op
    | _ => opBignumCalc op

/-- The gating condition of the claim, written from its words: the calc op
is not enabled, or a bn0..bn3 size exceeds kMaxBignumSize, or the modulo is
present while the module lacks SupportsModularBignumCalc, or a per-op cap
is violated. -/
def bignumCalcGatedSpec (kMaxBignumSize : Nat) (calcOpsHave : CalcOp → Bool)
    (module : Module) (op : BignumCalcOp) : Bool :=
  (!(calcOpsHave op.calcOp))
  || decide (op.bn0.length > kMaxBignumSize)
  || decide (op.bn1.length > kMaxBignumSize)
  || decide (op.bn2.length > kMaxBignumSize)
  || decide (op.bn3.length > kMaxBignumSize)
  || (op.modulo.isSome && !module.supportsModularBignumCalc)
  || (op.calcOp == CalcOp.SetBit && decide (op.bn1.length > 4))
  || (op.calcOp == CalcOp.Exp &&
      (decide (op.bn0.length > 5) || decide (op.bn1.length > 2)))
  || (op.calcOp == CalcOp.ModLShift && decide (op.bn1.length > 4))
  || (op.calcOp == CalcOp.Exp2 && decide (op.bn0.length > 4))

/-! ## Option registry, module selection and the Run pipeline -/

/-- The Options fields read by getModule and Run: the optional forced
module ID, the explicitly disabled module IDs, and the minimum task
count. -/
structure Options where
  forceModule : Option Nat
  disableModules : List Nat
  minModules : Nat
deriving DecidableEq

/-- ExecutorBase::getModule: draw a module ID (the drawnID parameter
stands for ds.Get of uint64), override it with options.forceModule when
set, return nothing when the ID is explicitly disabled or absent from the
registry, and otherwise look the module up.  The registry list models the
std::map from module ID to module handle: its entries are ascending and
unique in the ID (stated as a hypothesis where a theorem needs it). -/
def getModule (opts : Options) (registry : List Module) (drawnID : Nat) :
    Option Module :=
  let moduleID := match opts.forceModule with
    | some forced => forced
    | none => drawnID
  if opts.disableModules.contains moduleID then none
  else registry.find? (fun m => m.id = moduleID)

/-- One iteration of the task-construction loop of Run: the operation drawn
by getOp, the module ID drawn from the parent Datasource, and the trailing
continuation bit read by the do-while condition. -/
structure Draw (Op : Type) where
  op : Op
  moduleID : Nat
  continueBit : Bool

/-- The task-construction loop of ExecutorBase::Run.  Each iteration draws
an operation (already carrying its modifier; the stamp parameter is the
getOpPostprocess hook applied inside getOp) and a module; unknown or
disabled modules are skipped without consuming a slot; the loop stops when
the accepted count reaches MaxOperations or the continuation bit is
false.  The counter argument is the number of tasks accepted so far. -/
def buildTasks {Op : Type} (opts : Options) (registry : List Module)
    (stamp : Op → Op) (maxOps : Nat) :
    Nat → List (Draw Op) → List (Module × Op)
  | _, [] => []
  | count, d :: rest =>
    match getModule opts registry d.moduleID with
    | none =>
      if d.continueBit then buildTasks opts registry stamp maxOps count rest
      else []
    | some m =>
      (m, stamp d.op) ::
        (if count + 1 = maxOps then []
         else if d.continueBit then
           buildTasks opts registry stamp maxOps (count + 1) rest
         else [])

/-- The fan-out expansion block of ExecutorBase::Run: collect the IDs of
the non-disabled registry modules (an ascending set, since the registry is
an ascending map), subtract the module IDs already present in the task
list, and append one task (module, operations[0].second) per missing
module, in ascending ID order. -/
def fanOut {Op : Type} (opts : Options) (registry : List Module)
    (tasks : List (Module × Op)) : List (Module × Op) :=
  match tasks with
  | [] => []
  | t0 :: _ =>
    let moduleIDs :=
      (registry.filter (fun m => !(opts.disableModules.contains m.id))).map Module.id
    let operationModuleIDs := tasks.map (fun t => t.1.id)
    let addModuleIDs := moduleIDs.filter (fun i => !(operationModuleIDs.contains i))
    tasks ++ addModuleIDs.filterMap (fun i =>
      (registry.find? (fun m => m.id = i)).map (fun m => (m, t0.2)))

/-- The task list of one Run after construction, the empty-list early
return, fan-out expansion and the minModules gate; the empty list stands
for the early returns that execute nothing. -/
def runTasks {Op : Type} (opts : Options) (registry : List Module)
    (stamp : Op → Op) (maxOps : Nat) (draws : List (Draw Op)) :
    List (Module × Op) :=
  match buildTasks opts registry stamp maxOps 0 draws with
  | [] => []
  | t0 :: rest =>
    let expanded := fanOut opts registry (t0 :: rest)
    if expanded.length < opts.minModules then [] else expanded

/-- The (module, operation) pairs on which Run invokes the callModule hook,
in order: the run task list after the duplicate-task modifier mutation. -/
def runDispatched {Op : Type} (getMod : Op → List Nat)
    (setMod : Op → List Nat → Op) (opts : Options) (registry : List Module)
    (stamp : Op → Op) (maxOps : Nat) (draws : List (Draw Op)) :
    List (Module × Op) :=
  dupMutate getMod setMod (runTasks opts registry stamp maxOps draws)

/-- The results recorded by Run, in order: callModule applied to every
dispatched task. -/
def runResults {Op ρ : Type} (callModuleFn : Module → Op → Option ρ)
    (getMod : Op → List Nat) (setMod : Op → List Nat → Op) (opts : Options)
    (registry : List Module) (stamp : Op → Op) (maxOps : Nat)
    (draws : List (Draw Op)) : List (Module × Option ρ) :=
  (runDispatched getMod setMod opts registry stamp maxOps draws).map
    (fun t => (t.1, callModuleFn t.1 t.2))

/-- Modifier accessor for BignumCalc tasks in the Run loop. -/
def bnGetMod (op : BignumCalcOp) : List Nat :=
  op.modifier

/-- Modifier writer for BignumCalc tasks in the Run loop. -/
def bnSetMod (op : BignumCalcOp) (m : List Nat) : BignumCalcOp :=
  { op with modifier := m }

/-! ## The modular BignumCalc variants and getOp -/

/-- The modulus fixed by ExecutorBignumCalc_Mod_BLS12_381_R. -/
def bls12_381_r_modulo : String :=
  "52435875175126190479447740508185965837690552500527637822603658699938581184513"

/-- The modulus fixed by ExecutorBignumCalc_Mod_BLS12_381_P. -/
def bls12_381_p_modulo : String :=
  "4002409555221667393417789825735904156556882819939007885332058136124031650490837864442687629129015664037894272559787"

/-- The modulus fixed by ExecutorBignumCalc_Mod_2Exp256. -/
def twoExp256_modulo : String :=
  "115792089237316195423570985008687907853269984665640564039457584007913129639936"

/-- The getOpPostprocess override shared by the three modular BignumCalc
executors: stamp the fixed modulus onto the drawn operation. -/
def bignumModuloStamp (modulus : String) (op : BignumCalcOp) : BignumCalcOp :=
  { op with modulo := some modulus }

/-- ExecutorBignumCalc_Mod_BLS12_381_R::getOpPostprocess. -/
def getOpPostprocessBLS12_381_R (op : BignumCalcOp) : BignumCalcOp :=
  bignumModuloStamp bls12_381_r_modulo op

/-- ExecutorBignumCalc_Mod_BLS12_381_P::getOpPostprocess. -/
def getOpPostprocessBLS12_381_P (op : BignumCalcOp) : BignumCalcOp :=
  bignumModuloStamp bls12_381_p_modulo op

/-- ExecutorBignumCalc_Mod_2Exp256::getOpPostprocess. -/
def getOpPostprocess2Exp256 (op : BignumCalcOp) : BignumCalcOp :=
  bignumModuloStamp twoExp256_modulo op

/-- ExecutorBase::getOp.  With a parent Datasource (modeled by the modifier
bytes it yields), the operation is parsed from the buffer with that
modifier and then passed through getOpPostprocess; with a null parent (as
in the compare loop), the operation is parsed with an empty modifier and
getOpPostprocess is NOT applied.  The parse parameter stands for the
OperationType constructor reading the raw buffer. -/
def getOp {Op : Type} (post : Op → Op) (parse : List Nat → List Nat → Op) :
    Option (List Nat) → List Nat → Op
  | some modifier, data => post (parse data modifier)
  | none, data => parse data []

/-- The ECDH_Derive getOpPostprocess override.  The Datasource draws are
abstracted as parameters: the leading bool, the module pick, and the two
drawn ECC_PrivateToPublic operations; opECC_PrivateToPublic stands for the
module method.  The original operation is returned whenever the bool is
false, no module is found, the curves differ, or either public-key
computation fails. -/
def ecdhGetOpPostprocess (drawBit : Bool) (drawnModule : Option Module)
    (op1 op2 : ECC_PrivateToPublicOp)
    (opECC_PrivateToPublic : Module → ECC_PrivateToPublicOp → Option (String × String))
    (op : ECDH_DeriveOp) : ECDH_DeriveOp :=
  if drawBit then
    match drawnModule with
    | none => op
    | some m =>
      if op1.curveType = op2.curveType then
        match opECC_PrivateToPublic m op1, opECC_PrivateToPublic m op2 with
        | some pub1, some pub2 =>
          { modifier := op.modifier
            curveType := op1.curveType
            pub1 := pub1
            pub2 := pub2 }
        | _, _ => op
      else op
  else op

/-! ## Helper lemmas -/

lemma symEnc_probes_noDecryptFalse (openSSL_ID : Nat) (module : Module)
    (f : SymmetricDecryptOp → Option (List Nat)) (opName algorithm : String)
    (op : SymmetricEncryptOp) (result : Option Ciphertext) :
    (symmetricEncryptPostprocess false openSSL_ID module f opName algorithm
      op result).msanProbes =
      match result with
      | none => []
      | some ct => ct.ciphertext :: ct.tag.toList := by
  cases result with
  | none => rfl
  | some ct =>
    simp only [symmetricEncryptPostprocess, Bool.false_eq_true, if_false]
    split
    · split
      · rcases h : f (symmetricDecryptOfEncrypt op ct) with _ | c
        · simp [h]
        · simp only [h]
          split <;> rfl
      · rfl
    · rfl

lemma filterResults_length_le {ρ : Type} (results : List (Module × Option ρ)) :
    (filterResults results).length ≤ results.length :=
  List.length_filterMap_le _ _

lemma compareExec_eq {Op ρ : Type} [DecidableEq ρ] (dontCompareFn : Op → Bool)
    (o0 : Module × Op) (ops : List (Module × Op)) (opName algorithm : String)
    (results : List (Module × Option ρ)) :
    compareExec dontCompareFn (o0 :: ops) opName algorithm results =
      if (filterResults results).length < 2 then none
      else if dontCompareFn o0.2 then none
      else findFirstDiff opName algorithm (filterResults results) := by
  by_cases hr : results.length < 2
  · have hf : (filterResults results).length < 2 :=
      Nat.lt_of_le_of_lt (filterResults_length_le results) hr
    simp [compareExec, hr, hf]
  · simp [compareExec, hr]

lemma findFirstDiff_of_chain {ρ : Type} [DecidableEq ρ] (opName algorithm : String)
    (l : List (Module × ρ)) (h : List.Chain' (fun u v => u.2 = v.2) l) :
    findFirstDiff opName algorithm l = none := by
  induction l with
  | nil => rfl
  | cons x rest ih =>
    cases rest with
    | nil => rfl
    | cons y rest2 =>
      rw [List.chain'_cons] at h
      simpa [findFirstDiff, h.1] using ih h.2

lemma findFirstDiff_first {ρ : Type} [DecidableEq ρ] (opName algorithm : String)
    (x y : Module × ρ) (l₂ : List (Module × ρ)) (hxy : x.2 ≠ y.2) :
    ∀ l₁ : List (Module × ρ), List.Chain' (fun u v => u.2 = v.2) (l₁ ++ [x]) →
      findFirstDiff opName algorithm (l₁ ++ x :: y :: l₂) =
        some (abortCall [x.1.name, y.1.name] opName algorithm "difference") := by
  intro l₁
  induction l₁ with
  | nil =>
    intro _
    simp [findFirstDiff, hxy]
  | cons u t ih =>
    intro hchain
    cases t with
    | nil =>
      have h1 : u.2 = x.2 := (List.chain'_cons.mp hchain).1
      simp [findFirstDiff, h1, hxy]
    | cons v t2 =>
      rw [List.cons_append, List.cons_append] at hchain
      have hc := List.chain'_cons.mp hchain
      have hrec := ih hc.2
      simpa [findFirstDiff, hc.1] using hrec

/-- The AES and ARIA GCM and CCM variants named by the claim. -/
def isAesAriaGcmCcm (c : CipherType) : Bool :=
  c == CipherType.AES_128_GCM || c == CipherType.AES_192_GCM
  || c == CipherType.AES_256_GCM
  || c == CipherType.AES_128_CCM || c == CipherType.AES_192_CCM
  || c == CipherType.AES_256_CCM
  || c == CipherType.ARIA_128_CCM || c == CipherType.ARIA_192_CCM
  || c == CipherType.ARIA_256_CCM
  || c == CipherType.ARIA_128_GCM || c == CipherType.ARIA_192_GCM
  || c == CipherType.ARIA_256_GCM

/-- The condition of the claim for skipping the self-decrypt check,
written from its words: the module is OpenSSL and the cipher is
AES_128_OCB or AES_256_OCB, or the module is OpenSSL, the cipher is an AES
or ARIA GCM or CCM variant, and op.tagSize is absent. -/
def tryDecryptFalseSpec (openSSL_ID : Nat) (module : Module)
    (op : SymmetricEncryptOp) : Bool :=
  (module.id == openSSL_ID) &&
    ((op.cipher.cipherType == CipherType.AES_128_OCB
      || op.cipher.cipherType == CipherType.AES_256_OCB)
     || (isAesAriaGcmCcm op.cipher.cipherType && (op.tagSize == none)))

lemma symEncTryDecrypt_eq (openSSL_ID : Nat) (module : Module)
    (op : SymmetricEncryptOp) :
    symEncTryDecrypt openSSL_ID module op =
      !(tryDecryptFalseSpec openSSL_ID module op) := by
  cases hc : op.cipher.cipherType <;>
  by_cases hid : module.id = openSSL_ID <;>
  cases ht : op.tagSize <;>
  simp_all [symEncTryDecrypt, tryDecryptFalseSpec, isAesAriaGcmCcm]

lemma buildTasks_pred {Op : Type} (P : Op → Prop) (opts : Options)
    (registry : List Module) (stamp : Op → Op) (maxOps : Nat)
    (hstamp : ∀ op, P (stamp op)) :
    ∀ (draws : List (Draw Op)) (count : Nat) (t : Module × Op),
      t ∈ buildTasks opts registry stamp maxOps count draws → P t.2 := by
  intro draws
  induction draws with
  | nil =>
    intro count t ht
    simp [buildTasks] at ht
  | cons d rest ih =>
    intro count t ht
    cases hg : getModule opts registry d.moduleID with
    | none =>
      simp only [buildTasks, hg] at ht
      split at ht
      · exact ih count t ht
      · simp at ht
    | some m =>
      simp only [buildTasks, hg] at ht
      rcases List.mem_cons.mp ht with he | hm
      · rw [he]
        exact hstamp d.op
      · split at hm
        · simp at hm
        · split at hm
          · exact ih (count + 1) t hm
          · simp at hm

lemma fanOut_pred {Op : Type} (P : Op → Prop) (opts : Options)
    (registry : List Module) (tasks : List (Module × Op))
    (htasks : ∀ u ∈ tasks, P u.2) :
    ∀ t ∈ fanOut opts registry tasks, P t.2 := by
  intro t ht
  cases tasks with
  | nil => simp [fanOut] at ht
  | cons t0 rest =>
    simp only [fanOut] at ht
    rcases List.mem_append.mp ht with h | h
    · exact htasks t h
    · rcases List.mem_filterMap.mp h with ⟨i, _, hmap⟩
      obtain ⟨m, _, rfl⟩ := Option.map_eq_some'.mp hmap
      exact htasks t0 (List.mem_cons_self _ _)

lemma dupMutateGo_pred {Op : Type} (P : Op → Prop) (getMod : Op → List Nat)
    (setMod : Op → List Nat → Op)
    (hset : ∀ op m, P op → P (setMod op m)) :
    ∀ (prev : Module) (l : List (Module × Op)), (∀ u ∈ l, P u.2) →
      ∀ t ∈ dupMutateGo getMod setMod prev l, P t.2 := by
  intro prev l
  induction l generalizing prev with
  | nil =>
    intro _ t ht
    simp [dupMutateGo] at ht
  | cons u rest ih =>
    intro hl t ht
    simp only [dupMutateGo] at ht
    rcases List.mem_cons.mp ht with he | hm
    · subst he
      split
      · exact hset u.2 _ (hl u (List.mem_cons_self _ _))
      · exact hl u (List.mem_cons_self _ _)
    · exact ih u.1 (fun v hv => hl v (List.mem_cons_of_mem u hv)) t hm

lemma dupMutate_pred {Op : Type} (P : Op → Prop) (getMod : Op → List Nat)
    (setMod : Op → List Nat → Op)
    (hset : ∀ op m, P op → P (setMod op m))
    (l : List (Module × Op)) (hl : ∀ u ∈ l, P u.2) :
    ∀ t ∈ dupMutate getMod setMod l, P t.2 := by
  intro t ht
  cases l with
  | nil => simp [dupMutate] at ht
  | cons u rest =>
    simp only [dupMutate] at ht
    rcases List.mem_cons.mp ht with he | hm
    · rw [he]
      exact hl u (List.mem_cons_self _ _)
    · exact dupMutateGo_pred P getMod setMod hset u.1 rest
        (fun v hv => hl v (List.mem_cons_of_mem u hv)) t hm

lemma runDispatched_pred {Op : Type} (P : Op → Prop) (getMod : Op → List Nat)
    (setMod : Op → List Nat → Op) (opts : Options) (registry : List Module)
    (stamp : Op → Op) (maxOps : Nat) (draws : List (Draw Op))
    (hstamp : ∀ op, P (stamp op))
    (hset : ∀ op m, P op → P (setMod op m)) :
    ∀ t ∈ runDispatched getMod setMod opts registry stamp maxOps draws,
      P t.2 := by
  intro t ht
  unfold runDispatched runTasks at ht
  cases hb : buildTasks opts registry stamp maxOps 0 draws with
  | nil =>
    rw [hb] at ht
    simp [dupMutate] at ht
  | cons t0 rest =>
    rw [hb] at ht
    simp only at ht
    split at ht
    · simp [dupMutate] at ht
    · refine dupMutate_pred P getMod setMod hset _ ?_ t ht
      refine fanOut_pred P opts registry (t0 :: rest) ?_
      intro u hu
      exact buildTasks_pred P opts registry stamp maxOps hstamp draws 0 u
        (hb ▸ hu)

lemma find?_id_eq {registry : List Module} {i : Nat} {m : Module}
    (h : registry.find? (fun x => x.id = i) = some m) : m.id = i := by
  have := List.find?_some h
  simpa using this

lemma find?_id_isSome {registry : List Module} {i : Nat} {m : Module}
    (hm : m ∈ registry) (hid : m.id = i) :
    ∃ m', registry.find? (fun x => x.id = i) = some m' := by
  have : (registry.find? (fun x => x.id = i)).isSome := by
    rw [List.find?_isSome]
    exact ⟨m, hm, by simpa using hid⟩
  exact Option.isSome_iff_exists.mp this

lemma filterMap_find_ids {Op : Type} (registry : List Module) (v : Op) :
    ∀ ids : List Nat, (∀ i ∈ ids, ∃ m ∈ registry, m.id = i) →
      ((ids.filterMap (fun i =>
        (registry.find? (fun m => m.id = i)).map (fun m => (m, v)))).map
          (fun t => t.1.id)) = ids := by
  intro ids
  induction ids with
  | nil => intro _; rfl
  | cons i tl ih =>
    intro hids
    obtain ⟨m, hm, hid⟩ := hids i (List.mem_cons_self _ _)
    obtain ⟨m', hfind⟩ := find?_id_isSome hm hid
    have hm'id : m'.id = i := find?_id_eq hfind
    simp [List.filterMap_cons, hfind, hm'id,
      ih (fun j hj => hids j (List.mem_cons_of_mem i hj))]

lemma buildTasks_taskPred {Op : Type} (P : Module × Op → Prop) (opts : Options)
    (registry : List Module) (stamp : Op → Op) (maxOps : Nat)
    (hacc : ∀ (d : Draw Op) (m : Module),
      getModule opts registry d.moduleID = some m → P (m, stamp d.op)) :
    ∀ (draws : List (Draw Op)) (count : Nat) (t : Module × Op),
      t ∈ buildTasks opts registry stamp maxOps count draws → P t := by
  intro draws
  induction draws with
  | nil =>
    intro count t ht
    simp [buildTasks] at ht
  | cons d rest ih =>
    intro count t ht
    cases hg : getModule opts registry d.moduleID with
    | none =>
      simp only [buildTasks, hg] at ht
      split at ht
      · exact ih count t ht
      · simp at ht
    | some m =>
      simp only [buildTasks, hg] at ht
      rcases List.mem_cons.mp ht with he | hm
      · rw [he]
        exact hacc d m hg
      · split at hm
        · simp at hm
        · split at hm
          · exact ih (count + 1) t hm
          · simp at hm

lemma getModule_force {opts : Options} {registry : List Module} {f : Nat}
    (hforce : opts.forceModule = some f) {drawnID : Nat} {m : Module}
    (hg : getModule opts registry drawnID = some m) :
    m.id = f ∧ m ∈ registry := by
  unfold getModule at hg
  rw [hforce] at hg
  simp only at hg
  split at hg
  · simp at hg
  · exact ⟨find?_id_eq hg, List.mem_of_find?_eq_some hg⟩

/-- The module of operations[i-1] after processing a prefix: the module of
the last task of the prefix, or the seed when the prefix is empty. -/
def lastModule {Op : Type} (prev : Module) : List (Module × Op) → Module
  | [] => prev
  | t :: rest => lastModule t.1 rest

lemma lastModule_id {Op : Type} (f : Nat) :
    ∀ (xs : List (Module × Op)) (prev : Module), prev.id = f →
      (∀ t ∈ xs, t.1.id = f) → (lastModule prev xs).id = f := by
  intro xs
  induction xs with
  | nil => intro prev hp _; exact hp
  | cons t rest ih =>
    intro prev _ hall
    exact ih t.1 (hall t (List.mem_cons_self _ _))
      (fun u hu => hall u (List.mem_cons_of_mem t hu))

lemma dupMutateGo_append {Op : Type} (getMod : Op → List Nat)
    (setMod : Op → List Nat → Op) :
    ∀ (xs : List (Module × Op)) (prev : Module) (ys : List (Module × Op)),
      dupMutateGo getMod setMod prev (xs ++ ys) =
        dupMutateGo getMod setMod prev xs ++
          dupMutateGo getMod setMod (lastModule prev xs) ys := by
  intro xs
  induction xs with
  | nil => intro prev ys; rfl
  | cons t rest ih =>
    intro prev ys
    simp only [List.cons_append, dupMutateGo, lastModule, List.append_eq]
    rw [ih t.1 ys]

lemma dupMutateGo_of_ne {Op : Type} (getMod : Op → List Nat)
    (setMod : Op → List Nat → Op) :
    ∀ (l : List (Module × Op)) (prev : Module),
      List.Chain (fun a b : Module => a ≠ b) prev (l.map Prod.fst) →
      dupMutateGo getMod setMod prev l = l := by
  intro l
  induction l with
  | nil => intro prev _; rfl
  | cons t rest ih =>
    intro prev hch
    rw [List.map_cons, List.chain_cons] at hch
    simp only [dupMutateGo]
    rw [if_neg (fun hc => hch.1 hc.1), ih t.1 hch.2]

lemma chain_ne_of_ids {Op : Type} :
    ∀ (l : List (Module × Op)) (prev : Module),
      List.Chain (fun a b : Nat => a ≠ b) prev.id (l.map (fun t => t.1.id)) →
      List.Chain (fun a b : Module => a ≠ b) prev (l.map Prod.fst) := by
  intro l
  induction l with
  | nil => intro prev _; exact List.Chain.nil
  | cons t rest ih =>
    intro prev h
    rw [List.map_cons, List.chain_cons] at h
    rw [List.map_cons, List.chain_cons]
    exact ⟨fun he => h.1 (congrArg Module.id he), ih t.1 h.2⟩

lemma chain_ne_nat (f : Nat) (ids : List Nat) (hp : ids.Pairwise (· < ·))
    (hf : ∀ i ∈ ids, i ≠ f) : List.Chain (fun a b : Nat => a ≠ b) f ids := by
  cases ids with
  | nil => exact List.Chain.nil
  | cons i tl =>
    refine List.Chain.cons (Ne.symm (hf i (List.mem_cons_self _ _))) ?_
    have hchain : List.Chain (fun a b : Nat => a < b) i tl :=
      List.Pairwise.chain hp
    exact List.Chain.imp (fun a b h => Nat.ne_of_lt h) hchain

lemma mem_map_filter_sub (registry : List Module) (p : Module → Bool)
    (q : Nat → Bool) :
    ∀ i ∈ ((registry.filter p).map Module.id).filter q,
      ∃ m ∈ registry, m.id = i := by
  intro i hi
  have hi2 := List.mem_of_mem_filter hi
  rcases List.mem_map.mp hi2 with ⟨m, hmf, hmid⟩
  exact ⟨m, List.mem_of_mem_filter hmf, hmid⟩

lemma map_filter_pairwise (registry : List Module) (p : Module → Bool)
    (q : Nat → Bool) (hsorted : (registry.map Module.id).Pairwise (· < ·)) :
    (((registry.filter p).map Module.id).filter q).Pairwise (· < ·) := by
  refine List.Pairwise.sublist ?_ hsorted
  have h1 : List.Sublist ((registry.filter p).map Module.id)
      (registry.map Module.id) :=
    (List.filter_sublist registry).map Module.id
  exact (List.filter_sublist _).trans h1

lemma fanOut_force_struct {Op : Type} (opts : Options) (registry : List Module)
    (f : Nat) (t0 : Module × Op) (rest : List (Module × Op))
    (getMod : Op → List Nat) (setMod : Op → List Nat → Op)
    (hsorted : (registry.map Module.id).Pairwise (· < ·))
    (hids : ∀ t ∈ t0 :: rest, t.1.id = f) :
    ∃ app : List (Module × Op),
      fanOut opts registry (t0 :: rest) = (t0 :: rest) ++ app
      ∧ dupMutateGo getMod setMod (lastModule t0.1 rest) app = app
      ∧ (∀ m ∈ registry, ¬ opts.disableModules.contains m.id → m.id ≠ f →
          (m, t0.2) ∈ app) := by
  have hinj : ∀ ⦃x⦄, x ∈ registry → ∀ ⦃y⦄, y ∈ registry → x.id = y.id → x = y :=
    List.inj_on_of_nodup_map (hsorted.imp (fun h => Nat.ne_of_lt h))
  have happ : fanOut opts registry (t0 :: rest) =
      (t0 :: rest) ++
        (((registry.filter
            (fun m => !(opts.disableModules.contains m.id))).map Module.id).filter
          (fun i => !(((t0 :: rest).map (fun t => t.1.id)).contains i))).filterMap
          (fun i => (registry.find? (fun m => m.id = i)).map (fun m => (m, t0.2))) :=
    rfl
  refine ⟨_, happ, ?_, ?_⟩
  · -- the appended tasks survive the mutation pass unchanged
    refine dupMutateGo_of_ne getMod setMod _ _ ?_
    refine chain_ne_of_ids _ _ ?_
    rw [filterMap_find_ids registry t0.2 _
      (mem_map_filter_sub registry _ _)]
    have hlast : (lastModule t0.1 rest).id = f :=
      lastModule_id f rest t0.1 (hids t0 (List.mem_cons_self _ _))
        (fun u hu => hids u (List.mem_cons_of_mem t0 hu))
    rw [hlast]
    refine chain_ne_nat f _ (map_filter_pairwise registry _ _ hsorted) ?_
    intro i hi hif
    have hq := (List.mem_filter.mp hi).2
    rw [hif] at hq
    have hfIn : f ∈ (t0 :: rest).map (fun t => t.1.id) :=
      List.mem_map.mpr ⟨t0, List.mem_cons_self _ _,
        hids t0 (List.mem_cons_self _ _)⟩
    have hcont : ((t0 :: rest).map (fun t => t.1.id)).contains f = true := by
      simpa using hfIn
    rw [hcont] at hq
    simp at hq
  · intro m hm hdis hmf
    have hnotin : m.id ∉ (t0 :: rest).map (fun t => t.1.id) := by
      intro hin
      rcases List.mem_map.mp hin with ⟨t, ht, hid2⟩
      exact hmf (hid2.symm.trans (hids t ht))
    have hmod : m.id ∈ (registry.filter
        (fun m => !(opts.disableModules.contains m.id))).map Module.id := by
      refine List.mem_map.mpr ⟨m, ?_, rfl⟩
      refine List.mem_filter.mpr ⟨hm, ?_⟩
      simpa using hdis
    have hadd : m.id ∈ ((registry.filter
        (fun m => !(opts.disableModules.contains m.id))).map Module.id).filter
          (fun i => !(((t0 :: rest).map (fun t => t.1.id)).contains i)) := by
      refine List.mem_filter.mpr ⟨hmod, ?_⟩
      simpa using hnotin
    obtain ⟨m', hfind⟩ := find?_id_isSome hm rfl
    have hm'eq : m' = m :=
      hinj (List.mem_of_find?_eq_some hfind) hm (find?_id_eq hfind)
    refine List.mem_filterMap.mpr ⟨m.id, hadd, ?_⟩
    rw [hfind, hm'eq]
    rfl

/-! ## Claim theorems -/

/-- C1 (code bug, evaluated at the failing input): two consecutive tasks on
the same module whose modifiers differ.  The claim (and the spec) say the
mutation step must leave the second task untouched because the modifiers
are unequal; the code nevertheless mutates it, because the source binds
prevOp to operations[i] instead of operations[i-1] and therefore compares
the modifier of the current task with itself. -/
theorem dupMutate_fires_on_unequal_modifiers :
    dupMutate (fun m => m) (fun _ m => m)
        ([(⟨0, "modA", false⟩, [0]), (⟨0, "modA", false⟩, [5])] :
          List (Module × List Nat))
      = [(⟨0, "modA", false⟩, [0]), (⟨0, "modA", false⟩, [6])]
    ∧ ([0] : List Nat) ≠ [5] := by
  constructor
  · rfl
  · decide

/-- C2 (counterexample): the sanitizer probe is not run on every present
result.  First, the SymmetricEncrypt postprocess hook returns before the
probe when options.noDecrypt is true, even though the result is present;
second, the BignumCalc postprocess hook contains no probe at all. -/
theorem sanitizer_probe_not_universal :
    (symmetricEncryptPostprocess true 0
        (⟨0, "OpenSSL", true⟩ : Module) (fun _ => none)
        "SymmetricEncrypt" "AES_128_GCM"
        (⟨[1], ⟨[], [], CipherType.AES_128_GCM⟩, some 16, none, []⟩ :
          SymmetricEncryptOp)
        (some ⟨[1, 2], some [3]⟩)).msanProbes = []
    ∧ (bignumCalcPostprocess 100 (some "123")).msanProbes = [] := by
  constructor
  · rfl
  · rfl

/-- C2 (amended): for Digest, HMAC, CMAC, SymmetricDecrypt and the Key
(KDF) families the probe runs over the result region of every present
result; for SymmetricEncrypt the ciphertext and tag regions are probed
exactly when options.noDecrypt is false; the BignumCalc postprocess hook
runs no probe (it only performs pool admission). -/
theorem sanitizer_probe_coverage :
    (∀ r : List Nat, digestPostprocess (some r) = [r] ∧ digestPostprocess none = [])
    ∧ (∀ r : List Nat, hmacPostprocess (some r) = [r])
    ∧ (∀ r : List Nat, cmacPostprocess (some r) = [r])
    ∧ (∀ r : List Nat, symmetricDecryptPostprocess (some r) = [r])
    ∧ (∀ r : List Nat, kdfPostprocess (some r) = [r])
    ∧ (∀ openSSL_ID module f opName algorithm op ct,
        (symmetricEncryptPostprocess false openSSL_ID module f opName algorithm
          op (some ct)).msanProbes = ct.ciphertext :: ct.tag.toList)
    ∧ (∀ openSSL_ID module f opName algorithm op result,
        (symmetricEncryptPostprocess true openSSL_ID module f opName algorithm
          op result).msanProbes = [])
    ∧ (∀ kMaxBignumSize result,
        (bignumCalcPostprocess kMaxBignumSize result).msanProbes = []) := by
  refine ⟨fun r => ⟨rfl, rfl⟩, fun r => rfl, fun r => rfl, fun r => rfl,
    fun r => rfl, ?_, ?_, ?_⟩
  · intro openSSL_ID module f opName algorithm op ct
    simpa using symEnc_probes_noDecryptFalse openSSL_ID module f opName algorithm
      op (some ct)
  · intro openSSL_ID module f opName algorithm op result
    rfl
  · intro kMaxBignumSize result
    cases result <;> rfl

set_option maxHeartbeats 1000000 in
/-- C5: ExecutorBignumCalc::callModule returns nothing exactly under the
gating condition of the claim (calc op not enabled; a bn0..bn3 size above
kMaxBignumSize; modulo present on a module without
SupportsModularBignumCalc; a per-op cap violated), independently of the
module method, and delegates to the module method in every other case. -/
theorem bignumCalc_callModule_gating (kMaxBignumSize : Nat)
    (calcOpsHave : CalcOp → Bool) (module : Module)
    (f : BignumCalcOp → Option String) (op : BignumCalcOp) :
    bignumCalcCallModule kMaxBignumSize calcOpsHave module f op =
      if bignumCalcGatedSpec kMaxBignumSize calcOpsHave module op then none
      else f op := by
  cases hc : op.calcOp <;>
  by_cases hm : op.modulo = none <;>
  by_cases hs : module.supportsModularBignumCalc <;>
  simp only [bignumCalcCallModule, bignumCalcGatedSpec, hc, hm, hs] <;>
  split_ifs <;>
  simp_all [Option.isSome_iff_ne_none] <;>
  omega

/-- C8: cross-module comparison is skipped exactly for the declared
indeterministic cases: the ECC_GenerateKeyPair and DH_GenerateKeyPair
compare overrides are unconditional no-ops, and the dontCompare
specializations return true exactly for BignumCalc Rand(), ECDSA_Sign with
a random nonce on a curve other than ed25519 and ed448, and
SymmetricEncrypt, SymmetricDecrypt, CMAC and HMAC with cipher
DES_EDE3_WRAP. -/
theorem dontCompare_characterization :
    (∀ (Op ρ : Type) (operations : List (Module × Op))
        (results : List (Module × Option ρ)),
        eccGenerateKeyPairCompare operations results = none
        ∧ dhGenerateKeyPairCompare operations results = none)
    ∧ (∀ op : BignumCalcOp,
        bignumCalcDontCompare op = true ↔ op.calcOp = CalcOp.Rand)
    ∧ (∀ op : ECDSA_SignOp,
        ecdsaSignDontCompare op = true ↔
          (op.curveType ≠ CurveType.ed25519 ∧ op.curveType ≠ CurveType.ed448
            ∧ op.useRandomNonce = true))
    ∧ (∀ op : SymmetricEncryptOp,
        symmetricEncryptDontCompare op = true ↔
          op.cipher.cipherType = CipherType.DES_EDE3_WRAP)
    ∧ (∀ op : SymmetricDecryptOp,
        symmetricDecryptDontCompare op = true ↔
          op.cipher.cipherType = CipherType.DES_EDE3_WRAP)
    ∧ (∀ op : CMACOp,
        cmacDontCompare op = true ↔
          op.cipher.cipherType = CipherType.DES_EDE3_WRAP)
    ∧ (∀ op : HMACOp,
        hmacDontCompare op = true ↔
          op.cipher.cipherType = CipherType.DES_EDE3_WRAP) := by
  refine ⟨fun Op ρ operations results => ⟨rfl, rfl⟩, ?_, ?_, ?_, ?_, ?_, ?_⟩
  · intro op
    unfold bignumCalcDontCompare
    split <;> simp_all
  · intro op
    unfold ecdsaSignDontCompare
    split <;> [skip; simp_all] <;> split <;> simp_all
  · intro op
    unfold symmetricEncryptDontCompare
    split <;> simp_all
  · intro op
    unfold symmetricDecryptDontCompare
    split <;> simp_all
  · intro op
    unfold cmacDontCompare
    split <;> simp_all
  · intro op
    unfold hmacDontCompare
    split <;> simp_all

/-- C4: the default comparator never aborts when fewer than two present
results remain after filtering, or when dontCompare holds of the first
task operation; absent results are never compared (the outcome is a
function of the filtered present results only); when all adjacent present
results are equal it returns quietly; and at the first unequal adjacent
pair of present results it invokes the Abort reporter with the two module
names (sorted by abort) and reason "difference".  The final conjunct
records that abort sorts the module names it is given. -/
theorem compare_default_characterization {Op ρ : Type} [DecidableEq ρ]
    (dontCompareFn : Op → Bool) (o0 : Module × Op) (ops : List (Module × Op))
    (opName algorithm : String) (results : List (Module × Option ρ)) :
    ((filterResults results).length < 2 →
      compareExec dontCompareFn (o0 :: ops) opName algorithm results = none)
    ∧ (dontCompareFn o0.2 = true →
      compareExec dontCompareFn (o0 :: ops) opName algorithm results = none)
    ∧ (dontCompareFn o0.2 = false →
      List.Chain' (fun u v => u.2 = v.2) (filterResults results) →
      compareExec dontCompareFn (o0 :: ops) opName algorithm results = none)
    ∧ (∀ (l₁ : List (Module × ρ)) (x y : Module × ρ) (l₂ : List (Module × ρ)),
      dontCompareFn o0.2 = false →
      filterResults results = l₁ ++ x :: y :: l₂ →
      List.Chain' (fun u v => u.2 = v.2) (l₁ ++ [x]) →
      x.2 ≠ y.2 →
      compareExec dontCompareFn (o0 :: ops) opName algorithm results =
        some (abortCall [x.1.name, y.1.name] opName algorithm "difference"))
    ∧ (∀ (names : List String) (oN alg reason : String),
      List.Sorted (fun s t => s ≤ t)
        (abortCall names oN alg reason).moduleNames) := by
  refine ⟨?_, ?_, ?_, ?_, ?_⟩
  · intro hlt
    rw [compareExec_eq]
    simp [hlt]
  · intro hdc
    rw [compareExec_eq]
    split
    · rfl
    · simp [hdc]
  · intro hdc hchain
    rw [compareExec_eq]
    split
    · rfl
    · simp [hdc, findFirstDiff_of_chain opName algorithm _ hchain]
  · intro l₁ x y l₂ hdc hfil hchain hxy
    rw [compareExec_eq, hfil]
    have hlen : ¬ (l₁ ++ x :: y :: l₂).length < 2 := by
      simp only [List.length_append, List.length_cons]
      omega
    rw [if_neg hlen, if_neg (by simp [hdc])]
    exact findFirstDiff_first opName algorithm x y l₂ hxy l₁ hchain
  · intro names oN alg reason
    exact List.sorted_insertionSort _ names

/-- C4 (witness): a concrete two-module run whose two present results
differ; the comparator aborts with the sorted module names and reason
"difference". -/
theorem compare_default_characterization_witness :
    compareExec (fun _ : Nat => false)
        ([(⟨0, "modA", false⟩, 0)] : List (Module × Nat)) "Digest" "SHA256"
        ([(⟨0, "modA", false⟩, some 1), (⟨1, "modB", false⟩, some 2)] :
          List (Module × Option Nat)) =
      some (abortCall ["modA", "modB"] "Digest" "SHA256" "difference") := by
  exact (compare_default_characterization (fun _ : Nat => false)
      (⟨0, "modA", false⟩, 0) [] "Digest" "SHA256"
      [(⟨0, "modA", false⟩, some 1), (⟨1, "modB", false⟩, some 2)]).2.2.2.1
    [] (⟨0, "modA", false⟩, 1) (⟨1, "modB", false⟩, 2) []
    rfl rfl (by simp) (by decide)

/-- C3: in the SymmetricEncrypt postprocess hook with noDecrypt false, a
non-empty cleartext, and a present result with non-empty ciphertext: no
decryption is attempted exactly under the claim condition (OpenSSL with
AES_128_OCB or AES_256_OCB, or OpenSSL with an AES or ARIA GCM or CCM
variant and no tagSize); otherwise decryption runs through the same
module on a SymmetricDecrypt operation with output buffer size
cleartext size + 32, the original AAD and an empty modifier; and the Abort
reporter fires with reason "cannot decrypt ciphertext" exactly when that
decryption returns nothing or a value different from the original
cleartext. -/
theorem symEnc_selfDecrypt_characterization (openSSL_ID : Nat) (module : Module)
    (f : SymmetricDecryptOp → Option (List Nat)) (opName algorithm : String)
    (op : SymmetricEncryptOp) (ct : Ciphertext)
    (hcl : op.cleartext.length > 0) (hct : ct.ciphertext.length > 0) :
    ((symmetricEncryptPostprocess false openSSL_ID module f opName algorithm op
        (some ct)).decryptOp = none ↔
      tryDecryptFalseSpec openSSL_ID module op = true)
    ∧ (tryDecryptFalseSpec openSSL_ID module op = false →
      (symmetricEncryptPostprocess false openSSL_ID module f opName algorithm op
        (some ct)).decryptOp = some (symmetricDecryptOfEncrypt op ct)
      ∧ (symmetricDecryptOfEncrypt op ct).cleartextSize = op.cleartext.length + 32
      ∧ (symmetricDecryptOfEncrypt op ct).aad = op.aad
      ∧ (symmetricDecryptOfEncrypt op ct).modifier = [])
    ∧ ((symmetricEncryptPostprocess false openSSL_ID module f opName algorithm op
        (some ct)).abortCall =
      if tryDecryptFalseSpec openSSL_ID module op = false
          ∧ f (symmetricDecryptOfEncrypt op ct) ≠ some op.cleartext then
        some (abortCall [module.name] opName algorithm "cannot decrypt ciphertext")
      else none) := by
  by_cases hspec : tryDecryptFalseSpec openSSL_ID module op = true
  · have htd : symEncTryDecrypt openSSL_ID module op = false := by
      rw [symEncTryDecrypt_eq, hspec]
      rfl
    refine ⟨?_, ?_, ?_⟩ <;>
      simp [symmetricEncryptPostprocess, hcl, hct, htd, hspec]
  · have hsf : tryDecryptFalseSpec openSSL_ID module op = false := by
      simpa using hspec
    have htd : symEncTryDecrypt openSSL_ID module op = true := by
      rw [symEncTryDecrypt_eq, hsf]
      rfl
    rcases hres : f (symmetricDecryptOfEncrypt op ct) with _ | c
    · refine ⟨?_, fun _ => ⟨?_, rfl, rfl, rfl⟩, ?_⟩ <;>
        simp [symmetricEncryptPostprocess, hcl, hct, htd, hsf, hres]
    · by_cases hcc : c = op.cleartext
      · refine ⟨?_, fun _ => ⟨?_, rfl, rfl, rfl⟩, ?_⟩ <;>
          simp [symmetricEncryptPostprocess, hcl, hct, htd, hsf, hres, hcc]
      · refine ⟨?_, fun _ => ⟨?_, rfl, rfl, rfl⟩, ?_⟩ <;>
          simp [symmetricEncryptPostprocess, hcl, hct, htd, hsf, hres, hcc]

/-- C3 (witness): a concrete OpenSSL encryption with a CBC-style cipher
and a decrypt stub returning the wrong cleartext: the decrypt is attempted
and the Abort reporter fires with reason "cannot decrypt ciphertext". -/
theorem symEnc_selfDecrypt_characterization_witness :
    (symmetricEncryptPostprocess false 5 (⟨5, "OpenSSL", true⟩ : Module)
        (fun _ => some [9]) "SymmetricEncrypt" "AES_128_CBC"
        (⟨[1], ⟨[], [], CipherType.OtherCipher 7⟩, none, none, []⟩ :
          SymmetricEncryptOp)
        (some ⟨[2, 3], none⟩)).abortCall =
      some (abortCall ["OpenSSL"] "SymmetricEncrypt" "AES_128_CBC"
        "cannot decrypt ciphertext") := by
  have h := (symEnc_selfDecrypt_characterization 5 (⟨5, "OpenSSL", true⟩ : Module)
    (fun _ => some [9]) "SymmetricEncrypt" "AES_128_CBC"
    (⟨[1], ⟨[], [], CipherType.OtherCipher 7⟩, none, none, []⟩ :
      SymmetricEncryptOp)
    (⟨[2, 3], none⟩ : Ciphertext) (by decide) (by decide)).2.2
  rw [h]
  decide

/-- C6: in a Run of any of the three modular BignumCalc variant executors,
every task dispatched to callModule carries the modulo stamped by the
variant getOpPostprocess override (BLS12-381-r, BLS12-381-p and 2^256
respectively), regardless of the modulo the drawn operation originally
carried, and surviving the fan-out copy and the modifier mutation. -/
theorem modular_variant_modulo_stamping :
    (∀ (opts : Options) (registry : List Module) (maxOps : Nat)
      (draws : List (Draw BignumCalcOp)) (t : Module × BignumCalcOp),
      t ∈ runDispatched bnGetMod bnSetMod opts registry
            getOpPostprocessBLS12_381_R maxOps draws →
      t.2.modulo = some bls12_381_r_modulo)
    ∧ (∀ (opts : Options) (registry : List Module) (maxOps : Nat)
      (draws : List (Draw BignumCalcOp)) (t : Module × BignumCalcOp),
      t ∈ runDispatched bnGetMod bnSetMod opts registry
            getOpPostprocessBLS12_381_P maxOps draws →
      t.2.modulo = some bls12_381_p_modulo)
    ∧ (∀ (opts : Options) (registry : List Module) (maxOps : Nat)
      (draws : List (Draw BignumCalcOp)) (t : Module × BignumCalcOp),
      t ∈ runDispatched bnGetMod bnSetMod opts registry
            getOpPostprocess2Exp256 maxOps draws →
      t.2.modulo = some twoExp256_modulo) := by
  refine ⟨?_, ?_, ?_⟩
  · intro opts registry maxOps draws t ht
    exact runDispatched_pred (fun op : BignumCalcOp => op.modulo = some bls12_381_r_modulo)
      bnGetMod bnSetMod opts registry _ maxOps draws
      (fun op => rfl) (fun op m h => h) t ht
  · intro opts registry maxOps draws t ht
    exact runDispatched_pred (fun op : BignumCalcOp => op.modulo = some bls12_381_p_modulo)
      bnGetMod bnSetMod opts registry _ maxOps draws
      (fun op => rfl) (fun op m h => h) t ht
  · intro opts registry maxOps draws t ht
    exact runDispatched_pred (fun op : BignumCalcOp => op.modulo = some twoExp256_modulo)
      bnGetMod bnSetMod opts registry _ maxOps draws
      (fun op => rfl) (fun op m h => h) t ht

/-- C6 (witness): a concrete one-draw Run of the BLS12-381-r variant on an
operation that originally carried no modulo; the dispatched task carries
the stamped modulus. -/
theorem modular_variant_modulo_stamping_witness :
    (((⟨3, "mod", true⟩ : Module),
        getOpPostprocessBLS12_381_R
          (⟨CalcOp.Rand, "", "", "", "", none, []⟩ : BignumCalcOp)) :
      Module × BignumCalcOp).2.modulo = some bls12_381_r_modulo := by
  exact modular_variant_modulo_stamping.1
    (⟨none, [], 0⟩ : Options) [⟨3, "mod", true⟩] 10
    [⟨⟨CalcOp.Rand, "", "", "", "", none, []⟩, 3, false⟩] _ (by decide)

/-- C7: after fan-out expansion of a non-empty task list, every registry
module that is not explicitly disabled appears in the task list; the
expansion appends tasks that all carry the first accepted operation, after
all original tasks, in ascending module-id order (the registry being an
ascending map). -/
theorem fanout_covers_enabled_modules {Op : Type} (opts : Options)
    (registry : List Module) (t0 : Module × Op) (rest : List (Module × Op))
    (hsorted : (registry.map Module.id).Pairwise (· < ·)) :
    (∀ m ∈ registry, ¬ opts.disableModules.contains m.id →
      m.id ∈ (fanOut opts registry (t0 :: rest)).map (fun t => t.1.id))
    ∧ ∃ app : List (Module × Op),
      fanOut opts registry (t0 :: rest) = (t0 :: rest) ++ app
      ∧ (∀ t ∈ app, t.2 = t0.2)
      ∧ (app.map (fun t => t.1.id)).Pairwise (· < ·) := by
  have happ : fanOut opts registry (t0 :: rest) =
      (t0 :: rest) ++
        (((registry.filter
            (fun m => !(opts.disableModules.contains m.id))).map Module.id).filter
          (fun i => !(((t0 :: rest).map (fun t => t.1.id)).contains i))).filterMap
          (fun i => (registry.find? (fun m => m.id = i)).map (fun m => (m, t0.2))) := by
    rfl
  have hidsub : ∀ i ∈ ((registry.filter
      (fun m => !(opts.disableModules.contains m.id))).map Module.id).filter
        (fun i => !(((t0 :: rest).map (fun t => t.1.id)).contains i)),
      ∃ m ∈ registry, m.id = i := by
    intro i hi
    have hi2 := List.mem_of_mem_filter hi
    rcases List.mem_map.mp hi2 with ⟨m, hmf, hmid⟩
    exact ⟨m, List.mem_of_mem_filter hmf, hmid⟩
  constructor
  · intro m hm hdis
    by_cases hin : m.id ∈ (t0 :: rest).map (fun t => t.1.id)
    · rw [happ, List.map_append]
      exact List.mem_append_left _ hin
    · have hmod : m.id ∈ (registry.filter
          (fun m => !(opts.disableModules.contains m.id))).map Module.id := by
        refine List.mem_map.mpr ⟨m, ?_, rfl⟩
        refine List.mem_filter.mpr ⟨hm, ?_⟩
        simpa using hdis
      have hadd : m.id ∈ ((registry.filter
          (fun m => !(opts.disableModules.contains m.id))).map Module.id).filter
            (fun i => !(((t0 :: rest).map (fun t => t.1.id)).contains i)) := by
        refine List.mem_filter.mpr ⟨hmod, ?_⟩
        simpa using hin
      obtain ⟨m', hfind⟩ := find?_id_isSome hm rfl
      rw [happ, List.map_append]
      refine List.mem_append_right _ ?_
      refine List.mem_map.mpr ⟨(m', t0.2), ?_, find?_id_eq hfind⟩
      exact List.mem_filterMap.mpr ⟨m.id, hadd, by rw [hfind]; rfl⟩
  · refine ⟨_, happ, ?_, ?_⟩
    · intro t ht
      rcases List.mem_filterMap.mp ht with ⟨i, _, hmap⟩
      obtain ⟨m', _, rfl⟩ := Option.map_eq_some'.mp hmap
      rfl
    · rw [filterMap_find_ids registry t0.2 _ hidsub]
      refine List.Pairwise.sublist ?_ hsorted
      have h1 : List.Sublist
          ((registry.filter
            (fun m => !(opts.disableModules.contains m.id))).map Module.id)
          (registry.map Module.id) :=
        (List.filter_sublist registry).map Module.id
      exact (List.filter_sublist _).trans h1

/-- C7 (witness): a two-module registry with one accepted task on the
first module; after expansion the second module appears in the task
list. -/
theorem fanout_covers_enabled_modules_witness :
    (2 : Nat) ∈ (fanOut (⟨none, [], 0⟩ : Options)
        [⟨1, "A", false⟩, ⟨2, "B", false⟩]
        ([((⟨1, "A", false⟩ : Module), (42 : Nat))])).map
      (fun t => t.1.id) := by
  exact (fanout_covers_enabled_modules (⟨none, [], 0⟩ : Options)
      [⟨1, "A", false⟩, ⟨2, "B", false⟩]
      ((⟨1, "A", false⟩ : Module), (42 : Nat)) []
      (by decide)).1 ⟨2, "B", false⟩ (by decide) (by decide)

/-- C9: setting options.forceModule does not confine execution to the
forced module.  Every accepted task carries the forced module id (getModule
overrides each drawn id), yet fan-out expansion still appends every other
enabled, non-disabled registry module paired with the first accepted
operation, the appended tasks survive the modifier-mutation pass
unchanged, and callModule is invoked on (module, tasks[0].op) for each of
them in the same Run. -/
theorem forceModule_does_not_confine {Op ρ : Type}
    (opts : Options) (f : Nat) (registry : List Module)
    (stamp : Op → Op) (getMod : Op → List Nat) (setMod : Op → List Nat → Op)
    (callModuleFn : Module → Op → Option ρ)
    (maxOps : Nat) (draws : List (Draw Op))
    (t0 : Module × Op) (rest : List (Module × Op))
    (hforce : opts.forceModule = some f)
    (hsorted : (registry.map Module.id).Pairwise (· < ·))
    (hbuild : buildTasks opts registry stamp maxOps 0 draws = t0 :: rest)
    (hmin : opts.minModules ≤ (fanOut opts registry (t0 :: rest)).length) :
    (∀ t ∈ t0 :: rest, t.1.id = f)
    ∧ (∀ m ∈ registry, ¬ opts.disableModules.contains m.id →
      (m, callModuleFn m t0.2) ∈
        runResults callModuleFn getMod setMod opts registry stamp maxOps
          draws) := by
  have hforceAll : ∀ t ∈ t0 :: rest, t.1.id = f := by
    intro t ht
    exact buildTasks_taskPred (fun t => t.1.id = f) opts registry stamp maxOps
      (fun d m hg => (getModule_force hforce hg).1) draws 0 t (hbuild ▸ ht)
  have hmemReg : ∀ t ∈ t0 :: rest, t.1 ∈ registry := by
    intro t ht
    exact buildTasks_taskPred (fun t => t.1 ∈ registry) opts registry stamp
      maxOps (fun d m hg => (getModule_force hforce hg).2) draws 0 t
      (hbuild ▸ ht)
  have hinj : ∀ ⦃x⦄, x ∈ registry → ∀ ⦃y⦄, y ∈ registry → x.id = y.id → x = y :=
    List.inj_on_of_nodup_map (hsorted.imp (fun h => Nat.ne_of_lt h))
  have hrt : runTasks opts registry stamp maxOps draws =
      fanOut opts registry (t0 :: rest) := by
    unfold runTasks
    rw [hbuild]
    have hge : ¬ (fanOut opts registry (t0 :: rest)).length < opts.minModules := by
      omega
    simp [hge]
  obtain ⟨app, happ, hgoapp, happmem⟩ :=
    fanOut_force_struct opts registry f t0 rest getMod setMod hsorted hforceAll
  refine ⟨hforceAll, ?_⟩
  intro m hm hdis
  unfold runResults runDispatched
  rw [hrt, happ]
  have hsplit : dupMutate getMod setMod ((t0 :: rest) ++ app) =
      t0 :: (dupMutateGo getMod setMod t0.1 rest ++ app) := by
    show t0 :: dupMutateGo getMod setMod t0.1 (rest ++ app) = _
    rw [dupMutateGo_append getMod setMod rest t0.1 app, hgoapp]
  rw [hsplit]
  by_cases hmf : m.id = f
  · have heq : t0.1 = m :=
      hinj (hmemReg t0 (List.mem_cons_self _ _)) hm
        (by rw [hforceAll t0 (List.mem_cons_self _ _), hmf])
    have hmem0 : t0 ∈ t0 :: (dupMutateGo getMod setMod t0.1 rest ++ app) :=
      List.mem_cons_self _ _
    rw [← heq]
    exact List.mem_map_of_mem (fun t => (t.1, callModuleFn t.1 t.2)) hmem0
  · have hmemapp : (m, t0.2) ∈ app := happmem m hm hdis hmf
    have hmem2 : (m, t0.2) ∈ t0 :: (dupMutateGo getMod setMod t0.1 rest ++ app) :=
      List.mem_cons_of_mem t0 (List.mem_append_right _ hmemapp)
    exact List.mem_map_of_mem (fun t => (t.1, callModuleFn t.1 t.2)) hmem2

/-- C9 (witness): a two-module registry with forceModule set to module 1
and one accepted draw; module 2 is nevertheless invoked on the first
operation in the same Run. -/
theorem forceModule_does_not_confine_witness :
    ((⟨2, "B", false⟩ : Module),
        (fun (m : Module) (op : Nat) => some (op + m.id)) ⟨2, "B", false⟩ 7) ∈
      runResults (fun (m : Module) (op : Nat) => some (op + m.id))
        (fun _ => []) (fun op _ => op)
        (⟨some 1, [], 0⟩ : Options) [⟨1, "A", false⟩, ⟨2, "B", false⟩]
        (fun op => op) 5 [⟨7, 99, false⟩] := by
  exact (forceModule_does_not_confine (⟨some 1, [], 0⟩ : Options) 1
      [⟨1, "A", false⟩, ⟨2, "B", false⟩] (fun op => op) (fun _ => [])
      (fun op _ => op) (fun m op => some (op + m.id)) 5 [⟨7, 99, false⟩]
      (⟨1, "A", false⟩, 7) [] rfl (by decide) (by decide) (by decide)).2
    ⟨2, "B", false⟩ (by decide) (by decide)

/-- C10: the operation the default comparator uses for its diagnostic and
Abort call is rebuilt by getOp with a null parent Datasource, which skips
getOpPostprocess entirely; consequently, for the modular BignumCalc
variants the rebuilt operation differs from the dispatched (stamped)
operation whenever the raw buffer parses to a modulo other than the
stamped one, and for ECDH_Derive a successful substitution produces the
synthesized operation, which the null-parent reconstruction does not
re-apply. -/
theorem compare_reconstruction_skips_postprocess :
    (∀ (Op : Type) (post : Op → Op) (parse : List Nat → List Nat → Op)
      (data : List Nat), getOp post parse none data = parse data [])
    ∧ (∀ (parse : List Nat → List Nat → BignumCalcOp) (data m : List Nat)
      (modulus : String),
      (parse data []).modulo ≠ some modulus →
      getOp (bignumModuloStamp modulus) parse (some m) data ≠
        getOp (bignumModuloStamp modulus) parse none data)
    ∧ (∀ (drawnModule : Module) (op1 op2 : ECC_PrivateToPublicOp)
      (opECC : Module → ECC_PrivateToPublicOp → Option (String × String))
      (op : ECDH_DeriveOp) (pub1 pub2 : String × String),
      op1.curveType = op2.curveType →
      opECC drawnModule op1 = some pub1 →
      opECC drawnModule op2 = some pub2 →
      ecdhGetOpPostprocess true (some drawnModule) op1 op2 opECC op =
        { modifier := op.modifier, curveType := op1.curveType,
          pub1 := pub1, pub2 := pub2 }) := by
  refine ⟨fun Op post parse data => rfl, ?_, ?_⟩
  · intro parse data m modulus hne heq
    apply hne
    have h2 := congrArg BignumCalcOp.modulo heq
    simp [getOp, bignumModuloStamp] at h2
    exact h2.symm
  · intro drawnModule op1 op2 opECC op pub1 pub2 hc h1 h2
    simp [ecdhGetOpPostprocess, hc, h1, h2]

/-- C10 (witness): a concrete buffer parsing to an operation without a
modulo: the BLS12-381-r reconstruction differs from the dispatched
operation; and a concrete successful ECDH substitution that rewrites the
operation. -/
theorem compare_reconstruction_skips_postprocess_witness :
    (getOp (bignumModuloStamp bls12_381_r_modulo)
        (fun data m =>
          (⟨CalcOp.Rand, "", "", "", "", none, data ++ m⟩ : BignumCalcOp))
        (some [1]) [2] ≠
      getOp (bignumModuloStamp bls12_381_r_modulo)
        (fun data m =>
          (⟨CalcOp.Rand, "", "", "", "", none, data ++ m⟩ : BignumCalcOp))
        none [2])
    ∧ ecdhGetOpPostprocess true (some ⟨1, "A", false⟩)
        (⟨CurveType.ed25519, "3", []⟩ : ECC_PrivateToPublicOp)
        (⟨CurveType.ed25519, "5", []⟩ : ECC_PrivateToPublicOp)
        (fun _ o => some (o.priv, "9"))
        (⟨[7], CurveType.OtherCurve 0, ("a", "b"), ("c", "d")⟩ : ECDH_DeriveOp) =
      { modifier := [7], curveType := CurveType.ed25519,
        pub1 := ("3", "9"), pub2 := ("5", "9") } := by
  constructor
  · exact compare_reconstruction_skips_postprocess.2.1
      (fun data m =>
        (⟨CalcOp.Rand, "", "", "", "", none, data ++ m⟩ : BignumCalcOp))
      [2] [1] bls12_381_r_modulo (by decide)
  · exact compare_reconstruction_skips_postprocess.2.2
      ⟨1, "A", false⟩ ⟨CurveType.ed25519, "3", []⟩ ⟨CurveType.ed25519, "5", []⟩
      (fun _ o => some (o.priv, "9"))
      ⟨[7], CurveType.OtherCurve 0, ("a", "b"), ("c", "d")⟩
      ("3", "9") ("5", "9") rfl rfl rfl

end Cryptofuzz
